import Mathlib

/-!
Shallow embedding of the nix-remote-rust worker-protocol codec and connection
state machine (src/lib.rs, src/worker_op.rs).

Streams are modelled as lists of byte values (each a Nat below 256 on real
wire data; the codec itself reduces values modulo 256 / 2^64 exactly where the
Rust machine integers do).  A reader is a function consuming a prefix of the
input list and returning the parsed value plus the rest; a writer returns the
list of bytes appended to the output stream.  Rust panics (todo!, unwrap,
panic!) are modelled as distinguished error values, and io::ErrorKind
UnexpectedEof from read_exact as the unexpectedEof error.
-/

namespace NixDaemon

/-- Bytes on the wire: a list of byte values. -/
abbrev Bytes := List Nat

/-- Failure outcomes of the codec and connection loop.  unexpectedEof models a
failed read_exact; protocolMismatch, clientTooOld and badWorkerOp model the
corresponding todo! panics in lib.rs; unhandledOp models the bail! for a known
but unimplemented opcode; utf8Panic models the String::from_utf8(..).unwrap()
panic in the SetOptions arm; codecMismatch models the panic! in
WorkerOp::proxy_response when re-encoded bytes differ from observed bytes.
messageTooLarge is named by the specification; no code path below produces
it. -/
inductive Err where
  | unexpectedEof : Err
  | protocolMismatch : Err
  | clientTooOld : Err
  | messageTooLarge : Err
  | badWorkerOp (op : Nat) : Err
  | unhandledOp (op : Nat) : Err
  | utf8Panic : Err
  | codecMismatch : Err
deriving DecidableEq, Repr

deriving instance DecidableEq for Except

/-- Little-endian byte decomposition: k bytes of n, low byte first
(u64::from_le_bytes reversed). -/
def toLeBytesAux : Nat → Nat → Bytes
  | 0, _ => []
  | k + 1, n => n % 256 :: toLeBytesAux k (n / 256)

/-- Encoding of a u64 as 8 little-endian bytes (n.to_le_bytes() in
write_u64). -/
def toLeBytes (n : Nat) : Bytes := toLeBytesAux 8 n

/-- Value of a little-endian byte list (u64::from_le_bytes). -/
def fromLeBytes (bs : Bytes) : Nat := bs.foldr (fun b acc => b + 256 * acc) 0

/-- Read exactly n bytes from the input (Read::read_exact into a buffer of
length n); fails when fewer than n bytes remain. -/
def readExact (n : Nat) (input : Bytes) : Option (Bytes × Bytes) :=
  if n ≤ input.length then some (input.take n, input.drop n) else none

/-- NixReadWrite::read_u64: read 8 bytes, little-endian. -/
def read_u64 (input : Bytes) : Option (Nat × Bytes) :=
  (readExact 8 input).map fun p => (fromLeBytes p.1, p.2)

/-- NixReadWrite::read_bool: read a u64 and map zero to false, non-zero to
true. -/
def read_bool (input : Bytes) : Except Err (Bool × Bytes) :=
  match read_u64 input with
  | none => .error .unexpectedEof
  | some (i, rest) => .ok (i != 0, rest)

/-- NixReadWrite::write_u64: the 8 little-endian bytes of n. -/
def write_u64 (n : Nat) : Bytes := toLeBytes n

/-- NixReadWrite::write_string: u64 length prefix, payload, and, when the
length is not a multiple of 8, zero pad bytes up to the next multiple of 8. -/
def write_string (s : Bytes) : Bytes :=
  write_u64 s.length ++ s ++
    (if s.length % 8 > 0 then List.replicate (8 - s.length % 8) 0 else [])

/-- NixReadWrite::read_string: read the u64 length, then that many payload
bytes, then (when the length is not a multiple of 8) the pad bytes, whose
content is discarded.  No ceiling is applied to the length before the payload
read is attempted. -/
def read_string (input : Bytes) : Except Err (Bytes × Bytes) :=
  match read_u64 input with
  | none => .error .unexpectedEof
  | some (len, rest) =>
    match readExact len rest with
    | none => .error .unexpectedEof
    | some (buf, rest2) =>
      if len % 8 > 0 then
        match readExact (8 - len % 8) rest2 with
        | none => .error .unexpectedEof
        | some (_, rest3) => .ok (buf, rest3)
      else .ok (buf, rest2)

/-- Loop body of NixReadWrite::read_framed_data: read a u64 chunk length;
stop at a zero length; otherwise read that many payload bytes and continue.
The Rust loop reads each chunk into a fresh buffer and drops it, returning
Ok(()); the first component of the result here records the concatenation of
the chunk payload bytes read into those buffers.  The fuel argument only
bounds the recursion: every iteration that recurses consumes at least 9 bytes
of input, so a fuel of one more than the input length is never exhausted. -/
def read_framed_loop : Nat → Bytes → Except Err (Bytes × Bytes)
  | 0, _ => .error .unexpectedEof
  | fuel + 1, input =>
    match read_u64 input with
    | none => .error .unexpectedEof
    | some (len, rest) =>
      if len = 0 then .ok ([], rest)
      else
        match readExact len rest with
        | none => .error .unexpectedEof
        | some (buf, rest2) =>
          match read_framed_loop fuel rest2 with
          | .error e => .error e
          | .ok (tail, rest3) => .ok (buf ++ tail, rest3)

/-- NixReadWrite::read_framed_data, with the always-sufficient fuel. -/
def read_framed_data (input : Bytes) : Except Err (Bytes × Bytes) :=
  read_framed_loop (input.length + 1) input

/-- Encoding of a framed source by a conforming client: each chunk as a u64
length followed by its unpadded payload bytes, terminated by a zero length. -/
def encode_framed : List Bytes → Bytes
  | [] => toLeBytes 0
  | c :: cs => toLeBytes c.length ++ c ++ encode_framed cs

/-- Loop body of NixReadWrite::read_store_path_set: read the given number of
byte strings. -/
def read_strings : Nat → Bytes → Except Err (List Bytes × Bytes)
  | 0, input => .ok ([], input)
  | k + 1, input =>
    match read_string input with
    | .error e => .error e
    | .ok (s, rest) =>
      match read_strings k rest with
      | .error e => .error e
      | .ok (ss, rest2) => .ok (s :: ss, rest2)

/-- NixReadWrite::read_store_path_set: a u64 count followed by that many byte
strings. -/
def read_store_path_set (input : Bytes) : Except Err (List Bytes × Bytes) :=
  match read_u64 input with
  | none => .error .unexpectedEof
  | some (len, rest) => read_strings len rest

/-- Encoding of a store-path set by a conforming client: u64 count followed by
the written strings. -/
def encode_store_path_set (paths : List Bytes) : Bytes :=
  toLeBytes paths.length ++ (paths.map write_string).flatten

/-- Read k consecutive u64 values (the twelve leading SetOptions fields are
read this way, one read_u64 call each). -/
def readU64s : Nat → Bytes → Option (List Nat × Bytes)
  | 0, input => some ([], input)
  | k + 1, input =>
    match read_u64 input with
    | none => none
    | some (v, rest) => (readU64s k rest).map fun p => (v :: p.1, p.2)

/-! ## UTF-8 validation

The SetOptions arm of read_command calls String::from_utf8(...).unwrap() on
each option-override name and value; from_utf8 accepts exactly the valid
UTF-8 byte sequences (continuation bytes 0x80..0xBF; two-byte leads
0xC2..0xDF; three-byte leads 0xE0..0xEF with the overlong and surrogate
exclusions on the first continuation byte; four-byte leads 0xF0..0xF4 with
the corresponding range restrictions). -/

/-- Bounds of a UTF-8 continuation byte. -/
def isUtf8Cont (b : Nat) : Bool := decide (0x80 ≤ b ∧ b ≤ 0xBF)

/-- Validity of a byte list as UTF-8, as checked by Rust String::from_utf8. -/
def utf8Valid : List Nat → Bool
  | [] => true
  | b :: rest =>
    if b ≤ 0x7F then utf8Valid rest
    else if b < 0xC2 then false
    else if b ≤ 0xDF then
      match rest with
      | c1 :: r => isUtf8Cont c1 && utf8Valid r
      | [] => false
    else if b ≤ 0xEF then
      match rest with
      | c1 :: c2 :: r =>
        (if b = 0xE0 then decide (0xA0 ≤ c1 ∧ c1 ≤ 0xBF)
         else if b = 0xED then decide (0x80 ≤ c1 ∧ c1 ≤ 0x9F)
         else isUtf8Cont c1) && isUtf8Cont c2 && utf8Valid r
      | _ => false
    else if b ≤ 0xF4 then
      match rest with
      | c1 :: c2 :: c3 :: r =>
        (if b = 0xF0 then decide (0x90 ≤ c1 ∧ c1 ≤ 0xBF)
         else if b = 0xF4 then decide (0x80 ≤ c1 ∧ c1 ≤ 0x8F)
         else isUtf8Cont c1) && isUtf8Cont c2 && isUtf8Cont c3 && utf8Valid r
      | _ => false
    else false

/-! ## Protocol constants (lib.rs) -/

def WORKER_MAGIC_1 : Nat := 0x6e697863

def WORKER_MAGIC_2 : Nat := 0x6478696f

/-- Value of StderrSignal::Last. -/
def STDERR_LAST : Nat := 0x616c7473

def LVL_ERROR : Nat := 0

/-- DaemonVersion with u8 major and minor fields. -/
structure DaemonVersion where
  major : Nat
  minor : Nat
deriving DecidableEq, Repr

/-- From u64 for DaemonVersion: major is bits 8-15, minor is bits 0-7. -/
def DaemonVersion.ofU64 (x : Nat) : DaemonVersion :=
  { major := (x >>> 8) &&& 0xff, minor := x &&& 0xff }

/-- From DaemonVersion for u64: (major shifted left 8) or minor. -/
def DaemonVersion.toU64 (v : DaemonVersion) : Nat := (v.major <<< 8) ||| v.minor

def PROTOCOL_VERSION : DaemonVersion := { major := 1, minor := 34 }

/-- Body of the narhash literal in ValidPathInfo::write: 64 ASCII digit-zero
bytes (the Rust literal is a byte string of 64 zero characters, byte 48). -/
def nar_hash_zeros : Bytes := List.replicate 64 48

/-- ValidPathInfo::write: the optional leading path, then the fixed fields
written by the Rust in order: empty deriver string, the 64-zero narhash
string, u64 0 for the number of references, u64 0 for registrationTime,
u64 32 for narSize, u64 1 for ultimate (true as u64), u64 0 for the number of
sigs, and an empty content-address string. -/
def valid_path_info_write (path : Bytes) (include_path : Bool) : Bytes :=
  (if include_path then write_string path else []) ++
  write_string [] ++
  write_string nar_hash_zeros ++
  write_u64 0 ++
  write_u64 0 ++
  write_u64 32 ++
  write_u64 1 ++
  write_u64 0 ++
  write_string []

/-- Discriminant values of the WorkerOp enum in lib.rs: exactly these u64
values are accepted by WorkerOp::from_u64. -/
def workerOpCodes : List Nat :=
  [1, 3, 4, 5, 6, 7, 8, 9, 10, 11, 12, 13, 14, 16, 18, 19, 20, 21, 22, 23,
   24, 25, 26, 27, 28, 29, 30, 31, 32, 33, 34, 35, 36, 37, 38, 39, 40, 41,
   42, 43, 44, 45, 46]

/-- Loop over the SetOptions option overrides: each iteration reads a name
string and a value string, each passed through String::from_utf8(..).unwrap();
an invalid UTF-8 byte string panics (utf8Panic).  Nothing is written. -/
def read_options_loop : Nat → Bytes → Except Err Bytes
  | 0, input => .ok input
  | k + 1, input =>
    match read_string input with
    | .error e => .error e
    | .ok (nm, r1) =>
      if utf8Valid nm then
        match read_string r1 with
        | .error e => .error e
        | .ok (v, r2) =>
          if utf8Valid v then read_options_loop k r2 else .error .utf8Panic
      else .error .utf8Panic

/-- NixReadWrite::read_command: read the opcode u64; an unknown discriminant
is the todo! panic (badWorkerOp); the handled arms are SetOptions (19),
AddTempRoot (11), IsValidPath (1), AddToStore (7) and QueryPathInfo (26); any
other known opcode is the bail! (unhandledOp).  The result is the pair of the
bytes written to the client and the remaining input. -/
def read_command (input : Bytes) : Except Err (Bytes × Bytes) :=
  match read_u64 input with
  | none => .error .unexpectedEof
  | some (op, r0) =>
    if op ∈ workerOpCodes then
      if op = 19 then
        -- SetOptions: twelve u64 fields (keep_failing, keep_going,
        -- try_fallback, verbosity, max_build_jobs, max_silent_time,
        -- _use_build_hook, the verbose_build comparison value, _log_type,
        -- _print_build_trace, build_cores, use_substitutes), then the
        -- override count and the overrides.  The arm writes nothing.
        match readU64s 12 r0 with
        | none => .error .unexpectedEof
        | some (_fields, r1) =>
          match read_u64 r1 with
          | none => .error .unexpectedEof
          | some (n, r2) =>
            match read_options_loop n r2 with
            | .error e => .error e
            | .ok r3 => .ok ([], r3)
      else if op = 11 then
        -- AddTempRoot: read the path, write Last and u64 1.
        match read_string r0 with
        | .error e => .error e
        | .ok (_path, r1) => .ok (write_u64 STDERR_LAST ++ write_u64 1, r1)
      else if op = 1 then
        -- IsValidPath: read the path, write Last and u64 1 (true as u64).
        match read_string r0 with
        | .error e => .error e
        | .ok (_path, r1) => .ok (write_u64 STDERR_LAST ++ write_u64 1, r1)
      else if op = 7 then
        -- AddToStore: read name, cam_str, the reference set and the repair
        -- bool, consume the framed data, then write Last and the
        -- ValidPathInfo reply with the leading path (the request name).
        match read_string r0 with
        | .error e => .error e
        | .ok (nm, r1) =>
          match read_string r1 with
          | .error e => .error e
          | .ok (_camStr, r2) =>
            match read_store_path_set r2 with
            | .error e => .error e
            | .ok (_refs, r3) =>
              match read_bool r3 with
              | .error e => .error e
              | .ok (_repair, r4) =>
                match read_framed_data r4 with
                | .error e => .error e
                | .ok (_data, r5) =>
                  .ok (write_u64 STDERR_LAST ++ valid_path_info_write nm true, r5)
      else if op = 26 then
        -- QueryPathInfo: read the path, write Last, u64 1 and the
        -- ValidPathInfo reply without the leading path.
        match read_string r0 with
        | .error e => .error e
        | .ok (path, r1) =>
          .ok (write_u64 STDERR_LAST ++ write_u64 1 ++ valid_path_info_write path false, r1)
      else .error (.unhandledOp op)
    else .error (.badWorkerOp op)

/-- Byte content of the daemon identifier string rust-nix-bazel-0.1.0 written
when the client minor version is at least 33. -/
def daemon_id : Bytes :=
  [114, 117, 115, 116, 45, 110, 105, 120, 45, 98, 97, 122, 101, 108, 45,
   48, 46, 49, 46, 48]

/-- NixReadWrite::process_connection up to (not including) the op loop: read
the magic (mismatch is the todo! panic, protocolMismatch); write magic 2 and
the protocol version; read the client version (below 0x10a is the todo! panic,
clientTooOld); read and discard the obsolete CPU-affinity u64 when the client
minor is at least 14 and the obsolete reserve-space u64 when it is at least
11; write the daemon identifier string when it is at least 33; write the Last
stderr signal.  The result pairs the written bytes with the input remaining
for the op loop. -/
def process_connection_handshake (input : Bytes) : Except Err (Bytes × Bytes) :=
  match read_u64 input with
  | none => .error .unexpectedEof
  | some (magic, r1) =>
    if magic ≠ WORKER_MAGIC_1 then .error .protocolMismatch
    else
      match read_u64 r1 with
      | none => .error .unexpectedEof
      | some (clientVersion, r2) =>
        if clientVersion < 0x10a then .error .clientTooOld
        else
          let dv := DaemonVersion.ofU64 clientVersion
          match (if 14 ≤ dv.minor then (read_u64 r2).map Prod.snd else some r2) with
          | none => .error .unexpectedEof
          | some r3 =>
            match (if 11 ≤ dv.minor then (read_u64 r3).map Prod.snd else some r3) with
            | none => .error .unexpectedEof
            | some r4 =>
              .ok (write_u64 WORKER_MAGIC_2 ++
                   write_u64 PROTOCOL_VERSION.toU64 ++
                   (if 33 ≤ dv.minor then write_string daemon_id else []) ++
                   write_u64 STDERR_LAST, r4)

/-- One reply transfer of WorkerOp::proxy_response (the respond! macro body
for a non-NarFromPath op, instantiated at the reply codec of the pending op):
deserialize the reply from the upstream bytes through a PrintingRead that
records the consumed prefix, re-serialize it into the dbg buffer, panic!
(codecMismatch) when the two byte sequences differ, and otherwise serialize
the reply downstream.  The result pairs the bytes forwarded downstream with
the unconsumed upstream input. -/
def proxy_response {α : Type} (deser : Bytes → Except Err (α × Bytes))
    (ser : α → Bytes) (input : Bytes) : Except Err (Bytes × Bytes) :=
  match deser input with
  | .error e => .error e
  | .ok (reply, rest) =>
    let logged := input.take (input.length - rest.length)
    let dbg := ser reply
    if dbg = logged then .ok (dbg, rest) else .error .codecMismatch

/-- Modelled from the spec: the bool serializer of the crate serialize module,
which is not under src (only worker_op.rs names it); a boolean is encoded as a
u64, zero for false and one for true, matching both the specification sentence
on booleans and the writes of true as u64 in lib.rs. -/
def serialize_bool (b : Bool) : Bytes := write_u64 (if b then 1 else 0)

/-! ## Basic lemmas about the primitive codec -/

theorem toLeBytesAux_length (k n : Nat) : (toLeBytesAux k n).length = k := by
  induction k generalizing n with
  | zero => rfl
  | succ k ih => simp [toLeBytesAux, ih]

theorem toLeBytes_length (n : Nat) : (toLeBytes n).length = 8 :=
  toLeBytesAux_length 8 n

theorem fromLeBytes_nil : fromLeBytes [] = 0 := rfl

theorem fromLeBytes_cons (b : Nat) (bs : Bytes) :
    fromLeBytes (b :: bs) = b + 256 * fromLeBytes bs := rfl

theorem fromLeBytes_toLeBytesAux (k n : Nat) :
    fromLeBytes (toLeBytesAux k n) = n % 256 ^ k := by
  induction k generalizing n with
  | zero => simp [toLeBytesAux, fromLeBytes, Nat.mod_one]
  | succ k ih =>
    have hp : (256 : Nat) ^ (k + 1) = 256 * 256 ^ k := by ring
    rw [toLeBytesAux, fromLeBytes_cons, ih, hp, Nat.mod_mul]

theorem fromLeBytes_toLeBytes (n : Nat) :
    fromLeBytes (toLeBytes n) = n % 2 ^ 64 := by
  rw [toLeBytes, fromLeBytes_toLeBytesAux]
  norm_num

theorem toLeBytes_inj {a b : Nat} (ha : a < 2 ^ 64) (hb : b < 2 ^ 64)
    (h : toLeBytes a = toLeBytes b) : a = b := by
  have h2 := congrArg fromLeBytes h
  rw [fromLeBytes_toLeBytes, fromLeBytes_toLeBytes, Nat.mod_eq_of_lt ha,
    Nat.mod_eq_of_lt hb] at h2
  exact h2

theorem readExact_append (b rest : Bytes) :
    readExact b.length (b ++ rest) = some (b, rest) := by
  simp [readExact, List.take_left, List.drop_left]

theorem readExact_some {n : Nat} {input b rest : Bytes}
    (h : readExact n input = some (b, rest)) :
    b = input.take n ∧ rest = input.drop n ∧ n ≤ input.length := by
  unfold readExact at h
  split at h
  · simp_all
  · simp_all

theorem read_u64_append (n : Nat) (rest : Bytes) :
    read_u64 (toLeBytes n ++ rest) = some (n % 2 ^ 64, rest) := by
  have h8 : (toLeBytes n).length = 8 := toLeBytes_length n
  rw [read_u64, ← h8, readExact_append]
  simp [fromLeBytes_toLeBytes]

theorem read_u64_append_of_lt {n : Nat} (h : n < 2 ^ 64) (rest : Bytes) :
    read_u64 (toLeBytes n ++ rest) = some (n, rest) := by
  rw [read_u64_append, Nat.mod_eq_of_lt h]

/-- Round-trip of the byte-string codec: reading back a written string returns
the payload and leaves the trailing bytes untouched. -/
theorem read_string_write_string {s : Bytes} (h : s.length < 2 ^ 64)
    (rest : Bytes) : read_string (write_string s ++ rest) = .ok (s, rest) := by
  by_cases hm : s.length % 8 > 0
  · have h1 : write_string s ++ rest
        = toLeBytes s.length ++ (s ++ (List.replicate (8 - s.length % 8) 0 ++ rest)) := by
      simp [write_string, write_u64, if_pos hm]
    have hpad : (List.replicate (8 - s.length % 8) 0).length = 8 - s.length % 8 := by
      simp
    rw [h1, read_string, read_u64_append_of_lt h]
    dsimp only
    rw [readExact_append]
    dsimp only
    have hre := readExact_append (List.replicate (8 - s.length % 8) 0) rest
    rw [hpad] at hre
    rw [if_pos hm, hre]
  · have h1 : write_string s ++ rest = toLeBytes s.length ++ (s ++ rest) := by
      simp [write_string, write_u64, if_neg hm]
    rw [h1, read_string, read_u64_append_of_lt h]
    dsimp only
    rw [readExact_append]
    dsimp only
    rw [if_neg hm]

/-- Short input below the announced payload-plus-pad size makes read_string
fail with unexpectedEof, whatever the announced length. -/
theorem read_string_short {n : Nat} (hn : n < 2 ^ 64) {rest : Bytes}
    (hshort : rest.length < n + (8 - n % 8) % 8) :
    read_string (toLeBytes n ++ rest) = .error .unexpectedEof := by
  rw [read_string, read_u64_append_of_lt hn]
  dsimp only
  by_cases h1 : n ≤ rest.length
  · have hm : n % 8 > 0 := by omega
    have hre : readExact n rest = some (rest.take n, rest.drop n) := by
      rw [readExact, if_pos h1]
    rw [hre]
    dsimp only
    rw [if_pos hm]
    have hre2 : readExact (8 - n % 8) (rest.drop n) = none := by
      rw [readExact, if_neg]
      simp only [List.length_drop]
      omega
    rw [hre2]
  · have hre : readExact n rest = none := by
      rw [readExact, if_neg h1]
    rw [hre]

/-- No branch of read_string produces the messageTooLarge error: the function
has no size ceiling at all. -/
theorem read_string_never_messageTooLarge (input : Bytes) :
    read_string input ≠ .error .messageTooLarge := by
  intro h
  rw [read_string] at h
  split at h
  · simp_all
  · split at h
    · simp_all
    · split at h
      · split at h
        · simp_all
        · simp_all
      · simp_all

/-! ## Lemmas: framed source concatenation -/

theorem encode_framed_length_gt (chunks : List Bytes) :
    chunks.length < (encode_framed chunks).length := by
  induction chunks with
  | nil => simp [encode_framed, toLeBytes_length]
  | cons c cs ih =>
    simp only [encode_framed, List.length_append, List.length_cons, toLeBytes_length]
    omega

theorem read_framed_loop_encode {chunks : List Bytes}
    (hc : ∀ c ∈ chunks, c ≠ [] ∧ c.length < 2 ^ 64) :
    ∀ {fuel : Nat}, chunks.length < fuel → ∀ rest : Bytes,
    read_framed_loop fuel (encode_framed chunks ++ rest) = .ok (chunks.flatten, rest) := by
  induction chunks with
  | nil =>
    intro fuel hfuel rest
    match fuel, hfuel with
    | f + 1, _ =>
      rw [encode_framed, read_framed_loop, read_u64_append]
      dsimp only
      norm_num
  | cons c cs ih =>
    intro fuel hfuel rest
    match fuel, hfuel with
    | f + 1, hfuel =>
      have hcn : c ≠ [] ∧ c.length < 2 ^ 64 := hc c (by simp)
      have hcs : ∀ x ∈ cs, x ≠ [] ∧ x.length < 2 ^ 64 := fun x hx => hc x (by simp [hx])
      have h1 : encode_framed (c :: cs) ++ rest
          = toLeBytes c.length ++ (c ++ (encode_framed cs ++ rest)) := by
        simp [encode_framed]
      rw [h1, read_framed_loop, read_u64_append_of_lt hcn.2]
      dsimp only
      have hne : ¬ c.length = 0 := by
        simpa [List.length_eq_zero] using hcn.1
      rw [if_neg hne, readExact_append]
      dsimp only
      rw [ih hcs (by simpa using Nat.lt_of_succ_lt_succ (by simpa using hfuel)) rest]
      simp

theorem read_framed_data_encode {chunks : List Bytes}
    (hc : ∀ c ∈ chunks, c ≠ [] ∧ c.length < 2 ^ 64) (rest : Bytes) :
    read_framed_data (encode_framed chunks ++ rest) = .ok (chunks.flatten, rest) := by
  apply read_framed_loop_encode hc _ rest
  have := encode_framed_length_gt chunks
  simp only [read_framed_data, List.length_append]
  omega

/-! ## Lemmas: string sequences and u64 sequences -/

theorem read_strings_encode {paths : List Bytes}
    (h : ∀ p ∈ paths, p.length < 2 ^ 64) (rest : Bytes) :
    read_strings paths.length ((paths.map write_string).flatten ++ rest)
      = .ok (paths, rest) := by
  induction paths generalizing rest with
  | nil => simp [read_strings]
  | cons p ps ih =>
    have hp : p.length < 2 ^ 64 := h p (by simp)
    have hps : ∀ x ∈ ps, x.length < 2 ^ 64 := fun x hx => h x (by simp [hx])
    have h1 : ((p :: ps).map write_string).flatten ++ rest
        = write_string p ++ ((ps.map write_string).flatten ++ rest) := by
      simp
    rw [List.length_cons, h1, read_strings, read_string_write_string hp]
    dsimp only
    rw [ih hps rest]

theorem read_store_path_set_encode {paths : List Bytes}
    (hlen : paths.length < 2 ^ 64) (h : ∀ p ∈ paths, p.length < 2 ^ 64)
    (rest : Bytes) :
    read_store_path_set (encode_store_path_set paths ++ rest) = .ok (paths, rest) := by
  have h1 : encode_store_path_set paths ++ rest
      = toLeBytes paths.length ++ ((paths.map write_string).flatten ++ rest) := by
    simp [encode_store_path_set]
  rw [h1, read_store_path_set, read_u64_append_of_lt hlen]
  dsimp only
  exact read_strings_encode h rest

theorem readU64s_encode (vs : List Nat) (rest : Bytes) :
    readU64s vs.length ((vs.map toLeBytes).flatten ++ rest)
      = some (vs.map (fun v => v % 2 ^ 64), rest) := by
  induction vs generalizing rest with
  | nil => simp [readU64s]
  | cons v vs ih =>
    have h1 : ((v :: vs).map toLeBytes).flatten ++ rest
        = toLeBytes v ++ ((vs.map toLeBytes).flatten ++ rest) := by
      simp
    rw [List.length_cons, h1, readU64s, read_u64_append]
    dsimp only
    rw [ih rest]
    rfl

/-! ## Lemmas: the SetOptions override loop -/

theorem read_options_loop_encode {ps : List (Bytes × Bytes)}
    (h : ∀ p ∈ ps, p.1.length < 2 ^ 64 ∧ p.2.length < 2 ^ 64 ∧
      utf8Valid p.1 = true ∧ utf8Valid p.2 = true) (rest : Bytes) :
    read_options_loop ps.length
      ((ps.map (fun p => write_string p.1 ++ write_string p.2)).flatten ++ rest)
      = .ok rest := by
  induction ps generalizing rest with
  | nil => simp [read_options_loop]
  | cons p ps ih =>
    have hp := h p (by simp)
    have hps : ∀ x ∈ ps, x.1.length < 2 ^ 64 ∧ x.2.length < 2 ^ 64 ∧
        utf8Valid x.1 = true ∧ utf8Valid x.2 = true := fun x hx => h x (by simp [hx])
    have h1 : ((p :: ps).map (fun q => write_string q.1 ++ write_string q.2)).flatten ++ rest
        = write_string p.1 ++ (write_string p.2 ++
            ((ps.map (fun q => write_string q.1 ++ write_string q.2)).flatten ++ rest)) := by
      simp
    rw [List.length_cons, h1, read_options_loop, read_string_write_string hp.1]
    dsimp only
    rw [if_pos hp.2.2.1, read_string_write_string hp.2.1]
    dsimp only
    rw [if_pos hp.2.2.2]
    exact ih hps rest

/-! ## Lemmas: read_command arms -/

theorem read_command_addToStore (nm cam : Bytes) (refs : List Bytes) (repairV : Nat)
    (chunks : List Bytes) (rest : Bytes)
    (hnm : nm.length < 2 ^ 64) (hcam : cam.length < 2 ^ 64)
    (hrefsLen : refs.length < 2 ^ 64) (hrefs : ∀ p ∈ refs, p.length < 2 ^ 64)
    (hchunks : ∀ c ∈ chunks, c ≠ [] ∧ c.length < 2 ^ 64) :
    read_command (toLeBytes 7 ++ (write_string nm ++ (write_string cam ++
        (encode_store_path_set refs ++ (toLeBytes repairV ++ (encode_framed chunks ++ rest))))))
      = .ok (write_u64 STDERR_LAST ++ valid_path_info_write nm true, rest) := by
  rw [read_command, read_u64_append_of_lt (by norm_num)]
  dsimp only
  rw [if_pos (by decide), if_neg (by decide), if_neg (by decide), if_neg (by decide),
    if_pos rfl, read_string_write_string hnm]
  dsimp only
  rw [read_string_write_string hcam]
  dsimp only
  rw [read_store_path_set_encode hrefsLen hrefs]
  dsimp only
  rw [read_bool, read_u64_append]
  dsimp only
  rw [read_framed_data_encode hchunks]

theorem read_command_queryPathInfo (path : Bytes) (hpath : path.length < 2 ^ 64)
    (rest : Bytes) :
    read_command (toLeBytes 26 ++ (write_string path ++ rest))
      = .ok (write_u64 STDERR_LAST ++ write_u64 1 ++ valid_path_info_write path false,
          rest) := by
  rw [read_command, read_u64_append_of_lt (by norm_num)]
  dsimp only
  rw [if_pos (by decide), if_neg (by decide), if_neg (by decide), if_neg (by decide),
    if_neg (by decide), if_pos rfl, read_string_write_string hpath]

theorem read_command_setOptions (fields : List Nat) (hf : fields.length = 12)
    (ps : List (Bytes × Bytes)) (hn : ps.length < 2 ^ 64)
    (hps : ∀ p ∈ ps, p.1.length < 2 ^ 64 ∧ p.2.length < 2 ^ 64 ∧
      utf8Valid p.1 = true ∧ utf8Valid p.2 = true) (rest : Bytes) :
    read_command (toLeBytes 19 ++ ((fields.map toLeBytes).flatten ++ (toLeBytes ps.length ++
        ((ps.map (fun p => write_string p.1 ++ write_string p.2)).flatten ++ rest))))
      = .ok ([], rest) := by
  rw [read_command, read_u64_append_of_lt (by norm_num)]
  dsimp only
  rw [if_pos (by decide), if_pos rfl]
  have h12 := readU64s_encode fields (toLeBytes ps.length ++
    ((ps.map (fun p => write_string p.1 ++ write_string p.2)).flatten ++ rest))
  rw [hf] at h12
  rw [h12]
  dsimp only
  rw [read_u64_append_of_lt hn]
  dsimp only
  rw [read_options_loop_encode hps]

/-! ## Lemmas: proxy mode -/

theorem proxy_response_general {α : Type} (deser : Bytes → Except Err (α × Bytes))
    (ser : α → Bytes) (consumed rest : Bytes) (v : α)
    (hdeser : deser (consumed ++ rest) = .ok (v, rest)) :
    (ser v = consumed → proxy_response deser ser (consumed ++ rest) = .ok (consumed, rest)) ∧
    (ser v ≠ consumed → proxy_response deser ser (consumed ++ rest) = .error .codecMismatch) := by
  have hlog : (consumed ++ rest).take ((consumed ++ rest).length - rest.length) = consumed := by
    simp only [List.length_append, Nat.add_sub_cancel]
    exact List.take_left consumed rest
  rw [proxy_response, hdeser]
  dsimp only
  rw [hlog]
  constructor
  · intro he
    rw [if_pos he, he]
  · intro he
    rw [if_neg he]

/-! ## Claim theorems -/

/-- Claim C1: writing any byte string with write_string and reading it back
with read_string returns exactly the original string, and any wire bytes
produced by the conforming encoder (write_string itself) decode to a value
whose re-encoding reproduces those bytes byte for byte. -/
theorem wire_string_roundtrip (s rest : Bytes) (h : s.length < 2 ^ 64) :
    read_string (write_string s ++ rest) = .ok (s, rest) ∧
    (∀ b : Bytes, b = write_string s →
      ∃ v tail, read_string (b ++ rest) = .ok (v, tail) ∧
        write_string v = b ∧ tail = rest) := by
  refine ⟨read_string_write_string h rest, ?_⟩
  rintro b rfl
  exact ⟨s, rest, read_string_write_string h rest, rfl, rfl⟩

/-- Witness for C1 at the concrete string abc. -/
theorem wire_string_roundtrip_witness :
    read_string (write_string [97, 98, 99] ++ []) = .ok ([97, 98, 99], []) :=
  (wire_string_roundtrip [97, 98, 99] [] (by norm_num)).1

/-- Claim C2: proxied at the bool reply codec (the reply type of IsValidPath
and VerifyStore), a reply whose re-encoding equals the observed wire bytes
(any conforming u64 encoding of 0 or 1) is forwarded downstream byte for
byte, and a reply whose re-encoding differs (any non-canonical true value 2
or above) aborts the connection with codecMismatch and forwards nothing. -/
theorem proxy_response_bool_fidelity (n : Nat) (hn : n < 2 ^ 64) (rest : Bytes) :
    ((n = 0 ∨ n = 1) → proxy_response read_bool serialize_bool (toLeBytes n ++ rest)
        = .ok (toLeBytes n, rest)) ∧
    (2 ≤ n → proxy_response read_bool serialize_bool (toLeBytes n ++ rest)
        = .error .codecMismatch) := by
  have hdeser : read_bool (toLeBytes n ++ rest) = .ok (n != 0, rest) := by
    rw [read_bool, read_u64_append_of_lt hn]
  have hgen := proxy_response_general read_bool serialize_bool (toLeBytes n) rest
    (n != 0) hdeser
  constructor
  · rintro (rfl | rfl)
    · exact hgen.1 rfl
    · exact hgen.1 rfl
  · intro h2
    apply hgen.2
    have hne : (n != 0) = true := by simp; omega
    rw [hne]
    intro heq
    have heq2 : toLeBytes 1 = toLeBytes n := by
      simpa [serialize_bool, write_u64] using heq
    have h3 := toLeBytes_inj (by norm_num) hn heq2
    omega

/-- Witness for C2: the canonical encoding of true is forwarded; the
non-canonical encoding 2 aborts with codecMismatch. -/
theorem proxy_response_bool_fidelity_witness :
    proxy_response read_bool serialize_bool (toLeBytes 1 ++ []) = .ok (toLeBytes 1, []) ∧
    proxy_response read_bool serialize_bool (toLeBytes 2 ++ []) = .error .codecMismatch :=
  ⟨(proxy_response_bool_fidelity 1 (by norm_num) []).1 (Or.inr rfl),
   (proxy_response_bool_fidelity 2 (by norm_num) []).2 (by norm_num)⟩

/-- Claim C3: a client that sends WORKER_MAGIC_1 and version 0x122 receives
exactly magic 2, the u64 protocol version, the daemon identifier string and a
Last stderr frame, and exactly the two obsolete u64s that follow the version
are consumed before the op loop (the remaining input is rest); the constants
involved are 0x6e697863, 0x6478696f, 0x122 and 0x616c7473. -/
theorem handshake_version_0x122 (a b : Nat) (rest : Bytes) :
    (process_connection_handshake
      (toLeBytes WORKER_MAGIC_1 ++ (toLeBytes 0x122 ++ (toLeBytes a ++ (toLeBytes b ++ rest))))
      = .ok (write_u64 WORKER_MAGIC_2 ++ write_u64 PROTOCOL_VERSION.toU64 ++
          write_string daemon_id ++ write_u64 STDERR_LAST, rest)) ∧
    WORKER_MAGIC_1 = 0x6e697863 ∧ WORKER_MAGIC_2 = 0x6478696f ∧
    PROTOCOL_VERSION.toU64 = 0x122 ∧ STDERR_LAST = 0x616c7473 := by
  refine ⟨?_, by decide, by decide, by decide, by decide⟩
  have hm : WORKER_MAGIC_1 < 2 ^ 64 := by norm_num [WORKER_MAGIC_1]
  rw [process_connection_handshake, read_u64_append_of_lt hm]
  dsimp only
  rw [if_neg (by simp), read_u64_append_of_lt (by norm_num)]
  dsimp only
  rw [if_neg (by norm_num)]
  rw [if_pos (by decide), read_u64_append]
  simp only [Option.map_some']
  rw [if_pos (by decide), read_u64_append]
  simp only [Option.map_some']
  rw [if_pos (by decide)]

/-- Counterexample for C4: version 0x209 has minor 9 (below 10), yet the
handshake does not reject it as too old, since the code compares the whole
u64 against 0x10a rather than the minor byte. -/
theorem clientTooOld_minor_rule_counterexample :
    (DaemonVersion.ofU64 0x209).minor < 10 ∧
    process_connection_handshake (toLeBytes WORKER_MAGIC_1 ++ (toLeBytes 0x209 ++ []))
      ≠ .error .clientTooOld := by decide

/-- Claim C4 as amended: the handshake rejects a client with clientTooOld
exactly when the u64 version value it sent (reduced modulo 2 to the 64, as
the wire carries 8 bytes) is below 0x10a, a comparison of the entire u64 and
not of the minor byte alone. -/
theorem handshake_clientTooOld_iff (v : Nat) (rest : Bytes) :
    process_connection_handshake (toLeBytes WORKER_MAGIC_1 ++ (toLeBytes v ++ rest))
      = .error .clientTooOld ↔ v % 2 ^ 64 < 0x10a := by
  have hm : WORKER_MAGIC_1 < 2 ^ 64 := by norm_num [WORKER_MAGIC_1]
  rw [process_connection_handshake, read_u64_append_of_lt hm]
  dsimp only
  rw [if_neg (by simp), read_u64_append]
  dsimp only
  by_cases hv : v % 2 ^ 64 < 0x10a
  · rw [if_pos hv]
    exact iff_of_true rfl hv
  · rw [if_neg hv]
    apply iff_of_false _ hv
    intro hEq
    split at hEq
    · simp_all
    · split at hEq
      · simp_all
      · simp_all

/-- Counterexample for C5: a length prefix of 4 GiB does not fail with
messageTooLarge; the attempted payload read fails with unexpectedEof
instead (the code has no size ceiling). -/
theorem read_string_no_ceiling_counterexample :
    read_string (toLeBytes (2 ^ 32)) = .error .unexpectedEof ∧
    read_string (toLeBytes (2 ^ 32)) ≠ .error .messageTooLarge := by decide

/-- Claim C5 as amended: read_string applies no ceiling to the length prefix
and never fails with messageTooLarge; any short read of the payload or of the
pad bytes is reported as unexpectedEof. -/
theorem read_string_short_is_eof (n : Nat) (hn : n < 2 ^ 64) (rest : Bytes)
    (hshort : rest.length < n + (8 - n % 8) % 8) :
    read_string (toLeBytes n ++ rest) = .error .unexpectedEof ∧
    (∀ input : Bytes, read_string input ≠ .error .messageTooLarge) :=
  ⟨read_string_short hn hshort, read_string_never_messageTooLarge⟩

/-- Witness for C5 as amended, at announce-3-bytes-then-stop. -/
theorem read_string_short_is_eof_witness :
    read_string (toLeBytes 3 ++ []) = .error .unexpectedEof ∧
    (∀ input : Bytes, read_string input ≠ .error .messageTooLarge) :=
  read_string_short_is_eof 3 (by norm_num) [] (by norm_num)

/-- Claim C6: for any partition of a payload into non-empty chunks plus the
terminating zero chunk, the framed-source reader yields exactly the
concatenation of the chunk payloads; concretely, chunks (4, abcd), (3, efg),
(0) yield exactly abcdefg, and the full AddToStore request around them makes
the server emit Last followed by the ValidPathInfoWithPath reply. -/
theorem framed_source_concatenation :
    (∀ (chunks : List Bytes) (rest : Bytes),
      (∀ c ∈ chunks, c ≠ [] ∧ c.length < 2 ^ 64) →
      read_framed_data (encode_framed chunks ++ rest) = .ok (chunks.flatten, rest)) ∧
    read_framed_data (toLeBytes 4 ++ ([97, 98, 99, 100] ++
        (toLeBytes 3 ++ ([101, 102, 103] ++ toLeBytes 0))))
      = .ok ([97, 98, 99, 100, 101, 102, 103], []) ∧
    read_command (toLeBytes 7 ++ (write_string [102, 111, 111] ++ (write_string [] ++
        (toLeBytes 0 ++ (toLeBytes 1 ++ (toLeBytes 4 ++ ([97, 98, 99, 100] ++
          (toLeBytes 3 ++ ([101, 102, 103] ++ toLeBytes 0)))))))))
      = .ok (write_u64 STDERR_LAST ++ valid_path_info_write [102, 111, 111] true, []) :=
  ⟨fun chunks rest h => read_framed_data_encode h rest, by decide, by decide⟩

/-- Witness for C6 at the two-chunk partition of the payload [97, 98]. -/
theorem framed_source_concatenation_witness :
    read_framed_data (encode_framed [[97], [98]] ++ []) = .ok ([97, 98], []) :=
  framed_source_concatenation.1 [[97], [98]] [] (by decide)

set_option maxRecDepth 10000 in
/-- Claim C7 fails on the code: for a well-formed SetOptions request (the
scenario C field values and one override), the SetOptions arm of read_command
writes no bytes at all, in particular no Last stderr frame (the arm is the
only handled arm without the write of STDERR_LAST). -/
theorem setOptions_emits_no_bytes :
    read_command (toLeBytes 19 ++ (([1, 0, 1, 7, 4, 0, 0, 0, 0, 0, 2, 1].map toLeBytes).flatten ++
        (toLeBytes 1 ++ (write_string [97] ++ write_string [98]))))
      = .ok ([], []) ∧ ([] : Bytes) ≠ write_u64 STDERR_LAST := by decide

set_option maxRecDepth 10000 in
/-- Claim C9 fails on the code: a SetOptions request whose option-override
name is the single byte 0xff (not valid UTF-8) makes the server panic in
String::from_utf8(..).unwrap() instead of succeeding. -/
theorem setOptions_utf8_panic :
    read_command (toLeBytes 19 ++ (([0, 0, 0, 0, 0, 0, 0, 0, 0, 0, 0, 0].map toLeBytes).flatten ++
        (toLeBytes 1 ++ (write_string [255] ++ write_string [98]))))
      = .error .utf8Panic := by decide

/-- Claim C10: every ValidPathInfo reply (AddToStore with the leading path,
QueryPathInfo with the present-optional marker u64 1 and no leading path)
carries the same constants whatever the request: empty deriver, a narhash of
64 ASCII digit-zero bytes, zero references, registration time 0, narSize 32,
ultimate true (u64 1), zero signatures and an empty content address; only the
leading path varies and it echoes the path sent in the request. -/
theorem valid_path_info_reply_constants (nm cam : Bytes) (refs : List Bytes)
    (repairV : Nat) (chunks : List Bytes) (path rest rest2 : Bytes)
    (hnm : nm.length < 2 ^ 64) (hcam : cam.length < 2 ^ 64)
    (hrefsLen : refs.length < 2 ^ 64) (hrefs : ∀ p ∈ refs, p.length < 2 ^ 64)
    (hchunks : ∀ c ∈ chunks, c ≠ [] ∧ c.length < 2 ^ 64)
    (hpath : path.length < 2 ^ 64) :
    read_command (toLeBytes 7 ++ (write_string nm ++ (write_string cam ++
        (encode_store_path_set refs ++ (toLeBytes repairV ++ (encode_framed chunks ++ rest))))))
      = .ok (write_u64 STDERR_LAST ++ write_string nm ++ write_string [] ++
          write_string (List.replicate 64 48) ++ write_u64 0 ++ write_u64 0 ++
          write_u64 32 ++ write_u64 1 ++ write_u64 0 ++ write_string [], rest) ∧
    read_command (toLeBytes 26 ++ (write_string path ++ rest2))
      = .ok (write_u64 STDERR_LAST ++ write_u64 1 ++ write_string [] ++
          write_string (List.replicate 64 48) ++ write_u64 0 ++ write_u64 0 ++
          write_u64 32 ++ write_u64 1 ++ write_u64 0 ++ write_string [], rest2) := by
  constructor
  · rw [read_command_addToStore nm cam refs repairV chunks rest hnm hcam hrefsLen
      hrefs hchunks]
    simp [valid_path_info_write, nar_hash_zeros]
  · rw [read_command_queryPathInfo path hpath rest2]
    simp [valid_path_info_write, nar_hash_zeros]

/-- Witness for C10 at a one-byte path each for AddToStore and
QueryPathInfo. -/
theorem valid_path_info_reply_constants_witness :
    read_command (toLeBytes 7 ++ (write_string [120] ++ (write_string [] ++
        (encode_store_path_set [] ++ (toLeBytes 0 ++ (encode_framed [] ++ []))))))
      = .ok (write_u64 STDERR_LAST ++ write_string [120] ++ write_string [] ++
          write_string (List.replicate 64 48) ++ write_u64 0 ++ write_u64 0 ++
          write_u64 32 ++ write_u64 1 ++ write_u64 0 ++ write_string [], []) ∧
    read_command (toLeBytes 26 ++ (write_string [121] ++ []))
      = .ok (write_u64 STDERR_LAST ++ write_u64 1 ++ write_string [] ++
          write_string (List.replicate 64 48) ++ write_u64 0 ++ write_u64 0 ++
          write_u64 32 ++ write_u64 1 ++ write_u64 0 ++ write_string [], []) :=
  valid_path_info_reply_constants [120] [] [] 0 [] [121] [] []
    (by norm_num) (by norm_num) (by norm_num) (by decide) (by decide) (by norm_num)

/-- Claim C8: encoding a byte string of length n advances the stream by
exactly 8 plus n plus the pad to the next multiple of 8. -/
theorem write_string_length_advance (s : Bytes) :
    (write_string s).length = 8 + s.length + (8 - s.length % 8) % 8 := by
  by_cases hm : s.length % 8 > 0
  · simp only [write_string, write_u64, List.length_append, toLeBytes_length,
      if_pos hm, List.length_replicate]
    omega
  · simp only [write_string, write_u64, List.length_append, toLeBytes_length,
      if_neg hm, List.length_nil]
    omega

end NixDaemon
